import Mathlib

/-!
Verification of the dependency-updating scripts `update_deps.py` and
`update_deps_stable.py`.  Manifest lines are modelled as `String`s (their
character lists for the regex matching), the registry interaction of
`get_latest_version` is modelled by an explicit outcome type, and the
line-processing loop of `process_file` is modelled as a fold over the
list of lines, parameterized by a resolver `String → Option String`.
The two source files are transcribed separately (`…A` for
`update_deps.py`, `…B` for `update_deps_stable.py`).
-/

/-- Whitespace class of Python's `str.strip()` and of the regex class `\s`
(ASCII part): space, tab, newline, carriage return, vertical tab, form feed. -/
def pyIsSpace (c : Char) : Bool :=
  c == ' ' || c == '\t' || c == '\n' || c == '\r' || c == '\x0b' || c == '\x0c'

/-- Embedding of Python `str.strip()` on the character list of a line:
drop whitespace from both ends. -/
def pyStripList (s : List Char) : List Char :=
  ((s.dropWhile pyIsSpace).reverse.dropWhile pyIsSpace).reverse

/-- Character class `[a-z0-9-_]` of the dependency-name group in both regexes. -/
def isNameChar (c : Char) : Bool :=
  (decide ('a' ≤ c) && decide (c ≤ 'z')) || (decide ('0' ≤ c) && decide (c ≤ '9')) ||
    c == '-' || c == '_'

/-- Consume one expected literal character from the front of the input. -/
def expectChar (c : Char) : List Char → Option (List Char)
  | x :: xs => if x = c then some xs else none
  | [] => none

/-- Consume an expected literal word from the front of the input. -/
def expectLit (lit s : List Char) : Option (List Char) :=
  if lit.isPrefixOf s then some (s.drop lit.length) else none

/-- Split the input at its last closing brace: the regex tail `(.*)\x7d`
(greedy dot followed by a literal brace) captures everything before the
last `}` of the line.  Returns `none` when the input holds no `}`. -/
def lastBraceSplit (s : List Char) : Option (List Char) :=
  match s.reverse.dropWhile (fun c => c != '\x7d') with
  | [] => none
  | _ :: rest => some rest.reverse

/-- Embedding of `re.match` for the inline-table pattern of `update_deps.py`
line 60: `^([a-z0-9-_]+)\s*=\s*\x7b\s*version\s*=\s*"([^"]+)"(.*)\x7d`.
Every star in the pattern is forced (each repeated class is disjoint from
the literal that follows it), so the backtracking regex reduces to this
deterministic maximal-munch scan.  Returns (name, version, trailing text). -/
def parseInline (s : List Char) : Option (String × String × String) := do
  let name := s.takeWhile isNameChar
  if name.isEmpty then none else
  let s1 ← expectChar '=' ((s.dropWhile isNameChar).dropWhile pyIsSpace)
  let s2 ← expectChar '\x7b' (s1.dropWhile pyIsSpace)
  let s3 ← expectLit "version".data (s2.dropWhile pyIsSpace)
  let s4 ← expectChar '=' (s3.dropWhile pyIsSpace)
  let s5 ← expectChar '"' (s4.dropWhile pyIsSpace)
  let ver := s5.takeWhile (fun c => c != '"')
  if ver.isEmpty then none else
  let s6 ← expectChar '"' (s5.dropWhile (fun c => c != '"'))
  let suf ← lastBraceSplit s6
  pure (⟨name⟩, ⟨ver⟩, ⟨suf⟩)

/-- Embedding of `re.match` for the bare-string pattern of `update_deps.py`
line 73: `^([a-z0-9-_]+)\s*=\s*"([^"]+)"`.  As with `parseInline`, the
pattern is deterministic; `re.match` anchors only the start, so any
trailing text after the closing quote is accepted and ignored. -/
def parseBare (s : List Char) : Option (String × String) := do
  let name := s.takeWhile isNameChar
  if name.isEmpty then none else
  let s1 ← expectChar '=' ((s.dropWhile isNameChar).dropWhile pyIsSpace)
  let s2 ← expectChar '"' (s1.dropWhile pyIsSpace)
  let ver := s2.takeWhile (fun c => c != '"')
  if ver.isEmpty then none else
  let _ ← expectChar '"' (s2.dropWhile (fun c => c != '"'))
  pure (⟨name⟩, ⟨ver⟩)

/-- The recognized dependency section headers, `update_deps.py` line 42. -/
def dep_sections : List String :=
  ["[dependencies]", "[dev-dependencies]", "[build-dependencies]"]

/-- Result of processing one manifest line: the updated section flag, the
output line, the lines printed to standard output, and the names looked up
at the registry while processing this line. -/
structure LineResult where
  inDeps : Bool
  out : String
  stdout : List String
  lookups : List String

/-- Embedding of one iteration of the `for line in lines` loop of
`process_file` in `update_deps.py` (lines 44-84), with the call to
`get_latest_version` abstracted into the parameter `resolve`.  The guard
`if latest and latest != current_ver` tests Python truthiness of the
string `latest`, hence the `latest ≠ ""` conjunct. -/
def processLineA (resolve : String → Option String) (inDeps : Bool) (line : String) :
    LineResult :=
  let stripped := pyStripList line.data
  if "[".data.isPrefixOf stripped && "]".data.isSuffixOf stripped then
    ⟨dep_sections.any (fun t => t.data.isPrefixOf stripped), line, [], []⟩
  else if !inDeps || "#".data.isPrefixOf stripped || stripped.isEmpty then
    ⟨inDeps, line, [], []⟩
  else
    match parseInline stripped with
    | some (name, currentVer, suf) =>
      match resolve name with
      | some latest =>
        if latest ≠ "" ∧ latest ≠ currentVer then
          ⟨inDeps, name ++ " = \x7b version = \"" ++ latest ++ "\"" ++ suf ++ "\x7d\n",
           ["Updating " ++ name ++ ": " ++ currentVer ++ " -> " ++ latest], [name]⟩
        else ⟨inDeps, line, [], [name]⟩
      | none => ⟨inDeps, line, [], [name]⟩
    | none =>
      match parseBare stripped with
      | some (name, currentVer) =>
        match resolve name with
        | some latest =>
          if latest ≠ "" ∧ latest ≠ currentVer then
            ⟨inDeps, name ++ " = \"" ++ latest ++ "\"\n",
             ["Updating " ++ name ++ ": " ++ currentVer ++ " -> " ++ latest], [name]⟩
          else ⟨inDeps, line, [], [name]⟩
        | none => ⟨inDeps, line, [], [name]⟩
      | none => ⟨inDeps, line, [], []⟩

/-- The full loop of `process_file` in `update_deps.py`: thread the
`in_deps` flag through the lines, collecting output lines, standard
output, and the sequence of registry lookups. -/
def processAuxA (resolve : String → Option String) :
    Bool → List String → List String × List String × List String
  | _, [] => ([], [], [])
  | d, l :: ls =>
    let r := processLineA resolve d l
    let rest := processAuxA resolve r.inDeps ls
    (r.out :: rest.1, r.stdout ++ rest.2.1, r.lookups ++ rest.2.2)

/-- Embedding of `process_file` of `update_deps.py` (lines 35-87) on the
list of lines read from the manifest; `in_deps` starts false and the
returned first component is the full line sequence passed to `writelines`. -/
def processFileA (resolve : String → Option String) (lines : List String) :
    List String × List String × List String :=
  processAuxA resolve false lines

/-- Version objects of the registry response body, as read by
`update_deps_stable.py` lines 14-16: fields `num` and `yanked`. -/
structure VersionEntry where
  num : String
  yanked : Bool

/-- Decoded registry JSON document.  `crateMaxVersion` models the lookup
`data['crate']['max_version']`, whose failure (missing key) raises and is
caught like any other decode failure; `versions` models
`data.get('versions', [])`, which never raises. -/
structure RegistryDoc where
  crateMaxVersion : Except String String
  versions : List VersionEntry

/-- Outcome of `requests.get` for one lookup: either the call raised
(timeout, network failure), or a response arrived with a status code and
a body whose JSON decoding may itself raise. -/
inductive FetchOutcome where
  | requestError (detail : String)
  | response (status : Nat) (body : Except String RegistryDoc)

/-- Embedding of `get_latest_version` of `update_deps.py` (lines 5-14):
on a 200 response return `crate.max_version`; any raised error is caught,
printed to stderr as `Error fetching {name}: {detail}`, and `None` is
returned; a non-200 response falls through to `return None` silently.
Returns (result, stderr lines). -/
def getLatestVersionA (name : String) (o : FetchOutcome) : Option String × List String :=
  match o with
  | .requestError d => (none, ["Error fetching " ++ name ++ ": " ++ d])
  | .response status body =>
    if status = 200 then
      match body with
      | .error d => (none, ["Error fetching " ++ name ++ ": " ++ d])
      | .ok doc =>
        match doc.crateMaxVersion with
        | .error d => (none, ["Error fetching " ++ name ++ ": " ++ d])
        | .ok v => (some v, [])
    else (none, [])

/-- The `for v in versions` loop of `update_deps_stable.py` lines 14-17:
return the first `num` that is not yanked and holds no hyphen. -/
def findStableNum : List VersionEntry → Option String
  | [] => none
  | v :: vs =>
    if !v.yanked && !(v.num.data.contains '-') then some v.num else findStableNum vs

/-- Embedding of `get_latest_version` of `update_deps_stable.py`
(lines 5-22): on a 200 response scan `versions` for the first non-yanked,
hyphen-free `num`, falling back to `crate.max_version`; error handling is
as in the latest-policy variant.  Returns (result, stderr lines). -/
def getLatestVersionStable (name : String) (o : FetchOutcome) :
    Option String × List String :=
  match o with
  | .requestError d => (none, ["Error fetching " ++ name ++ ": " ++ d])
  | .response status body =>
    if status = 200 then
      match body with
      | .error d => (none, ["Error fetching " ++ name ++ ": " ++ d])
      | .ok doc =>
        match findStableNum doc.versions with
        | some num => (some num, [])
        | none =>
          match doc.crateMaxVersion with
          | .error d => (none, ["Error fetching " ++ name ++ ": " ++ d])
          | .ok v => (some v, [])
    else (none, [])

/-- Transcription of the inline-table regex as it occurs in
`update_deps_stable.py` line 49 (same pattern as `update_deps.py`). -/
def parseInlineB (s : List Char) : Option (String × String × String) := do
  let name := s.takeWhile isNameChar
  if name.isEmpty then none else
  let s1 ← expectChar '=' ((s.dropWhile isNameChar).dropWhile pyIsSpace)
  let s2 ← expectChar '\x7b' (s1.dropWhile pyIsSpace)
  let s3 ← expectLit "version".data (s2.dropWhile pyIsSpace)
  let s4 ← expectChar '=' (s3.dropWhile pyIsSpace)
  let s5 ← expectChar '"' (s4.dropWhile pyIsSpace)
  let ver := s5.takeWhile (fun c => c != '"')
  if ver.isEmpty then none else
  let s6 ← expectChar '"' (s5.dropWhile (fun c => c != '"'))
  let suf ← lastBraceSplit s6
  pure (⟨name⟩, ⟨ver⟩, ⟨suf⟩)

/-- Transcription of the bare-string regex as it occurs in
`update_deps_stable.py` line 62 (same pattern as `update_deps.py`). -/
def parseBareB (s : List Char) : Option (String × String) := do
  let name := s.takeWhile isNameChar
  if name.isEmpty then none else
  let s1 ← expectChar '=' ((s.dropWhile isNameChar).dropWhile pyIsSpace)
  let s2 ← expectChar '"' (s1.dropWhile pyIsSpace)
  let ver := s2.takeWhile (fun c => c != '"')
  if ver.isEmpty then none else
  let _ ← expectChar '"' (s2.dropWhile (fun c => c != '"'))
  pure (⟨name⟩, ⟨ver⟩)

/-- The dependency section list of `update_deps_stable.py` line 31. -/
def dep_sectionsB : List String :=
  ["[dependencies]", "[dev-dependencies]", "[build-dependencies]"]

/-- One iteration of the `for line in lines` loop of `process_file` in
`update_deps_stable.py` (lines 33-73), resolver abstracted as in
`processLineA`. -/
def processLineB (resolve : String → Option String) (inDeps : Bool) (line : String) :
    LineResult :=
  let stripped := pyStripList line.data
  if "[".data.isPrefixOf stripped && "]".data.isSuffixOf stripped then
    ⟨dep_sectionsB.any (fun t => t.data.isPrefixOf stripped), line, [], []⟩
  else if !inDeps || "#".data.isPrefixOf stripped || stripped.isEmpty then
    ⟨inDeps, line, [], []⟩
  else
    match parseInlineB stripped with
    | some (name, currentVer, suf) =>
      match resolve name with
      | some latest =>
        if latest ≠ "" ∧ latest ≠ currentVer then
          ⟨inDeps, name ++ " = \x7b version = \"" ++ latest ++ "\"" ++ suf ++ "\x7d\n",
           ["Updating " ++ name ++ ": " ++ currentVer ++ " -> " ++ latest], [name]⟩
        else ⟨inDeps, line, [], [name]⟩
      | none => ⟨inDeps, line, [], [name]⟩
    | none =>
      match parseBareB stripped with
      | some (name, currentVer) =>
        match resolve name with
        | some latest =>
          if latest ≠ "" ∧ latest ≠ currentVer then
            ⟨inDeps, name ++ " = \"" ++ latest ++ "\"\n",
             ["Updating " ++ name ++ ": " ++ currentVer ++ " -> " ++ latest], [name]⟩
          else ⟨inDeps, line, [], [name]⟩
        | none => ⟨inDeps, line, [], [name]⟩
      | none => ⟨inDeps, line, [], []⟩

/-- The full loop of `process_file` in `update_deps_stable.py`. -/
def processAuxB (resolve : String → Option String) :
    Bool → List String → List String × List String × List String
  | _, [] => ([], [], [])
  | d, l :: ls =>
    let r := processLineB resolve d l
    let rest := processAuxB resolve r.inDeps ls
    (r.out :: rest.1, r.stdout ++ rest.2.1, r.lookups ++ rest.2.2)

/-- Embedding of `process_file` of `update_deps_stable.py` (lines 24-76). -/
def processFileB (resolve : String → Option String) (lines : List String) :
    List String × List String × List String :=
  processAuxB resolve false lines

/-- The dependency entry (name, declared version) that `process_file`
would extract from a line: the inline-table pattern is tried first, then
the bare-string pattern, mirroring the match order of the loop body. -/
def entryOf (line : String) : Option (String × String) :=
  match parseInline (pyStripList line.data) with
  | some (n, c, _) => some (n, c)
  | none => parseBare (pyStripList line.data)

/-- Modelled from the spec: the bare-string classification rule as worded
in §4.2 item 2 of the specification, read as a start-anchored match of
`name = "V"` — some decomposition of the trimmed text into a non-empty
name over `[a-z0-9-_]`, whitespace, `=`, whitespace, a non-empty quoted
version free of `"`, and arbitrary remaining text.  Used to compare the
specified classification with the implemented one. -/
def SpecBareAtStart (s : List Char) : Prop :=
  ∃ n w1 w2 v r : List Char,
    s = n ++ w1 ++ ['='] ++ w2 ++ ['"'] ++ v ++ ['"'] ++ r ∧
    n ≠ [] ∧ (∀ c ∈ n, isNameChar c = true) ∧
    (∀ c ∈ w1, pyIsSpace c = true) ∧ (∀ c ∈ w2, pyIsSpace c = true) ∧
    v ≠ [] ∧ (∀ c ∈ v, c ≠ '"')

example : parseBare "libc = \"0.2.0\"".data = some ("libc", "0.2.0") := rfl
example : parseBare "foo = \"1.0\" \x7bx".data = some ("foo", "1.0") := rfl
example : parseInline "serde = \x7b version = \"1.0.0\", features = [\"derive\"] \x7d".data
    = some ("serde", "1.0.0", ", features = [\"derive\"] ") := rfl
example : parseInline "libc = \"0.2.0\"".data = none := rfl
example :
    processLineA (fun _ => some "2.0") true "foo = \"1.0\" \x7bx\n"
      = ⟨true, "foo = \"2.0\"\n", ["Updating foo: 1.0 -> 2.0"], ["foo"]⟩ := rfl
example :
    processFileA (fun _ => some "9.9") ["[profile.release]\n", "serde = \"1.0\"\n"]
      = (["[profile.release]\n", "serde = \"1.0\"\n"], [], []) := rfl
example :
    getLatestVersionStable "x"
      (.response 200 (.ok ⟨.ok "2.0.0-beta.1",
        [⟨"2.0.0-beta.1", false⟩, ⟨"1.9.0", false⟩, ⟨"1.8.0", true⟩]⟩))
      = (some "1.9.0", []) := rfl

/-! ### Character and list helper lemmas -/

lemma space_not_nameChar {c : Char} (h : pyIsSpace c = true) : isNameChar c = false := by
  simp only [pyIsSpace, Bool.or_eq_true, beq_iff_eq] at h
  rcases h with ((((h | h) | h) | h) | h) | h <;> subst h <;> decide

lemma nameChar_facts {c : Char} (h : isNameChar c = true) :
    pyIsSpace c = false ∧ c ≠ '[' ∧ c ≠ '#' ∧ c ≠ '=' ∧ c ≠ '"' ∧ c ≠ '\x7b' := by
  refine ⟨?_, ?_, ?_, ?_, ?_, ?_⟩
  · cases hs : pyIsSpace c
    · rfl
    · rw [space_not_nameChar hs] at h
      exact absurd h (by decide)
  all_goals intro hc; subst hc; exact absurd h (by decide)

lemma takeWhile_append_eq (p : Char → Bool) (xs ys : List Char)
    (h1 : ∀ c ∈ xs, p c = true) (h2 : ∀ c t, ys = c :: t → p c = false) :
    (xs ++ ys).takeWhile p = xs ∧ (xs ++ ys).dropWhile p = ys := by
  induction xs with
  | nil =>
    simp only [List.nil_append]
    cases ys with
    | nil => simp
    | cons y t =>
      rw [List.takeWhile_cons, List.dropWhile_cons, h2 y t rfl]
      simp
  | cons x xs ih =>
    have hx : p x = true := h1 x (by simp)
    have hrec := ih (fun c hc => h1 c (by simp [hc]))
    simp only [List.cons_append, List.takeWhile_cons, List.dropWhile_cons, hx]
    simp [hrec.1, hrec.2]

lemma dropWhile_head_false {p : Char → Bool} (l : List Char) :
    ∀ {c t}, l.dropWhile p = c :: t → p c = false := by
  induction l with
  | nil => intro c t h; simp at h
  | cons a l ih =>
    intro c t h
    by_cases ha : p a = true
    · rw [List.dropWhile_cons_of_pos ha] at h
      exact ih h
    · rw [List.dropWhile_cons_of_neg ha] at h
      injection h with h1 _
      subst h1
      simpa using ha

lemma expectChar_eq_some {c : Char} {s t : List Char} (h : expectChar c s = some t) :
    s = c :: t := by
  cases s with
  | nil => simp [expectChar] at h
  | cons a s' =>
    simp only [expectChar] at h
    split at h
    case isTrue heq =>
      injection h with h'
      rw [heq, h']
    case isFalse => exact absurd h (by simp)

lemma expectChar_cons_self (c : Char) (t : List Char) : expectChar c (c :: t) = some t := by
  simp [expectChar]

lemma parseBare_first_char {s : List Char} {n v : String} (h : parseBare s = some (n, v)) :
    ∃ c t, s = c :: t ∧ isNameChar c = true := by
  cases s with
  | nil => simp [parseBare] at h
  | cons a t =>
    refine ⟨a, t, rfl, ?_⟩
    by_contra ha
    rw [Bool.not_eq_true] at ha
    simp [parseBare, List.takeWhile_cons, ha] at h

lemma parseInline_first_char {s : List Char} {n v suf : String}
    (h : parseInline s = some (n, v, suf)) :
    ∃ c t, s = c :: t ∧ isNameChar c = true := by
  cases s with
  | nil => simp [parseInline] at h
  | cons a t =>
    refine ⟨a, t, rfl, ?_⟩
    by_contra ha
    rw [Bool.not_eq_true] at ha
    simp [parseInline, List.takeWhile_cons, ha] at h

lemma parseBare_sound {s : List Char} {n v : String} (h : parseBare s = some (n, v)) :
    SpecBareAtStart s := by
  simp only [parseBare] at h
  by_cases h0 : (s.takeWhile isNameChar).isEmpty
  · simp [h0] at h
  · rw [if_neg h0] at h
    simp only [Option.bind_eq_bind, Option.bind_eq_some] at h
    obtain ⟨s1, h1, h⟩ := h
    obtain ⟨s2, h2, h⟩ := h
    by_cases hv : (s2.takeWhile (fun c => c != '"')).isEmpty
    · simp [hv] at h
    · rw [if_neg hv] at h
      simp only [Option.bind_eq_bind, Option.bind_eq_some] at h
      obtain ⟨s3, h3, -⟩ := h
      have e1 : s = s.takeWhile isNameChar ++ s.dropWhile isNameChar :=
        (List.takeWhile_append_dropWhile _ _).symm
      have e2 : s.dropWhile isNameChar =
          (s.dropWhile isNameChar).takeWhile pyIsSpace ++ ('=' :: s1) := by
        rw [← expectChar_eq_some h1]
        exact (List.takeWhile_append_dropWhile _ _).symm
      have e3 : s1 = s1.takeWhile pyIsSpace ++ ('"' :: s2) := by
        rw [← expectChar_eq_some h2]
        exact (List.takeWhile_append_dropWhile _ _).symm
      have e4 : s2 = s2.takeWhile (fun c => c != '"') ++ ('"' :: s3) := by
        rw [← expectChar_eq_some h3]
        exact (List.takeWhile_append_dropWhile _ _).symm
      refine ⟨s.takeWhile isNameChar, (s.dropWhile isNameChar).takeWhile pyIsSpace,
        s1.takeWhile pyIsSpace, s2.takeWhile (fun c => c != '"'), s3, ?_, ?_, ?_, ?_, ?_, ?_, ?_⟩
      · conv_lhs => rw [e1, e2, e3, e4]
        simp [List.append_assoc]
      · intro hnil
        exact h0 (by simp [hnil])
      · exact fun c hc => List.mem_takeWhile_imp hc
      · exact fun c hc => List.mem_takeWhile_imp hc
      · exact fun c hc => List.mem_takeWhile_imp hc
      · intro hnil
        exact hv (by simp [hnil])
      · intro c hc
        have := List.mem_takeWhile_imp hc
        simpa using this

lemma parseBare_complete {s : List Char} (h : SpecBareAtStart s) :
    ∃ p, parseBare s = some p := by
  obtain ⟨n, w1, w2, v, r, heq, hn, hnc, hw1, hw2, hv, hvq⟩ := h
  subst heq
  have hys : ∀ c t, (w1 ++ (['='] ++ (w2 ++ (['"'] ++ (v ++ (['"'] ++ r)))))) = c :: t →
      isNameChar c = false := by
    intro c t hct
    cases w1 with
    | nil =>
      simp only [List.nil_append, List.singleton_append, List.cons.injEq] at hct
      rw [← hct.1]
      decide
    | cons a w1' =>
      simp only [List.cons_append, List.cons.injEq] at hct
      rw [← hct.1]
      exact space_not_nameChar (hw1 a (by simp))
  obtain ⟨htake, hdrop⟩ := takeWhile_append_eq isNameChar n
    (w1 ++ (['='] ++ (w2 ++ (['"'] ++ (v ++ (['"'] ++ r)))))) hnc hys
  have hd1 : (w1 ++ (['='] ++ (w2 ++ (['"'] ++ (v ++ (['"'] ++ r)))))).dropWhile pyIsSpace =
      '=' :: (w2 ++ (['"'] ++ (v ++ (['"'] ++ r)))) := by
    have := (takeWhile_append_eq pyIsSpace w1 (['='] ++ (w2 ++ (['"'] ++ (v ++ (['"'] ++ r)))))
      hw1 (fun c t hct => by
        simp only [List.singleton_append, List.cons.injEq] at hct
        rw [← hct.1]
        decide)).2
    simpa using this
  have hd2 : (w2 ++ (['"'] ++ (v ++ (['"'] ++ r)))).dropWhile pyIsSpace =
      '"' :: (v ++ (['"'] ++ r)) := by
    have := (takeWhile_append_eq pyIsSpace w2 (['"'] ++ (v ++ (['"'] ++ r)))
      hw2 (fun c t hct => by
        simp only [List.singleton_append, List.cons.injEq] at hct
        rw [← hct.1]
        decide)).2
    simpa using this
  have hvq' : ∀ c ∈ v, (fun c => c != '"') c = true := fun c hc => by
    simpa using hvq c hc
  obtain ⟨htv, hdv⟩ := takeWhile_append_eq (fun c => c != '"') v (['"'] ++ r) hvq'
    (fun c t hct => by
      simp only [List.singleton_append, List.cons.injEq] at hct
      rw [← hct.1]
      decide)
  have hne : n.isEmpty = false := by
    cases n
    · exact absurd rfl hn
    · rfl
  have hve : v.isEmpty = false := by
    cases v
    · exact absurd rfl hv
    · rfl
  refine ⟨(⟨n⟩, ⟨v⟩), ?_⟩
  simp only [List.append_assoc, List.singleton_append, List.cons_append] at htake hdrop hd1 hd2 htv hdv
  simp only [parseBare, Option.bind_eq_bind, Option.pure_def, List.append_assoc,
    List.singleton_append, List.cons_append, htake, hdrop, hne, Bool.false_eq_true, if_false,
    hd1, expectChar_cons_self, Option.some_bind, hd2, htv, hdv, hve]

lemma singleton_isPrefixOf_cons {a c : Char} {t : List Char} :
    [a].isPrefixOf (c :: t) = (a == c) := by
  simp [List.isPrefixOf]

lemma stripped_guards {s : List Char} {c : Char} {t : List Char}
    (he : s = c :: t) (hc : isNameChar c = true) :
    ("[".data.isPrefixOf s && "]".data.isSuffixOf s) = false ∧
    "#".data.isPrefixOf s = false ∧ s.isEmpty = false := by
  obtain ⟨-, hlb, hhash, -, -, -⟩ := nameChar_facts hc
  subst he
  have hpb : "[".data.isPrefixOf (c :: t) = false := by
    have hbra : "[".data = ['['] := rfl
    rw [hbra, singleton_isPrefixOf_cons]
    exact beq_eq_false_iff_ne.mpr (fun h => hlb h.symm)
  have hph : "#".data.isPrefixOf (c :: t) = false := by
    have hhsh : "#".data = ['#'] := rfl
    rw [hhsh, singleton_isPrefixOf_cons]
    exact beq_eq_false_iff_ne.mpr (fun h => hhash h.symm)
  refine ⟨?_, hph, rfl⟩
  rw [hpb, Bool.false_and]

lemma processLineA_inline (resolve : String → Option String) (line : String)
    {name currentVer suf : String}
    (hpi : parseInline (pyStripList line.data) = some (name, currentVer, suf)) :
    processLineA resolve true line =
      match resolve name with
      | some latest =>
        if latest ≠ "" ∧ latest ≠ currentVer then
          ⟨true, name ++ " = \x7b version = \"" ++ latest ++ "\"" ++ suf ++ "\x7d\n",
           ["Updating " ++ name ++ ": " ++ currentVer ++ " -> " ++ latest], [name]⟩
        else ⟨true, line, [], [name]⟩
      | none => ⟨true, line, [], [name]⟩ := by
  obtain ⟨c, t, he, hc⟩ := parseInline_first_char hpi
  obtain ⟨hg1, hg2, hg3⟩ := stripped_guards he hc
  simp only [processLineA, hg1, hg2, hg3, hpi, Bool.not_true, Bool.false_or,
    Bool.false_eq_true, if_false, Bool.or_self]

lemma processLineA_bare (resolve : String → Option String) (line : String)
    {name currentVer : String}
    (hpi : parseInline (pyStripList line.data) = none)
    (hpb : parseBare (pyStripList line.data) = some (name, currentVer)) :
    processLineA resolve true line =
      match resolve name with
      | some latest =>
        if latest ≠ "" ∧ latest ≠ currentVer then
          ⟨true, name ++ " = \"" ++ latest ++ "\"\n",
           ["Updating " ++ name ++ ": " ++ currentVer ++ " -> " ++ latest], [name]⟩
        else ⟨true, line, [], [name]⟩
      | none => ⟨true, line, [], [name]⟩ := by
  obtain ⟨c, t, he, hc⟩ := parseBare_first_char hpb
  obtain ⟨hg1, hg2, hg3⟩ := stripped_guards he hc
  simp only [processLineA, hg1, hg2, hg3, hpi, hpb, Bool.not_true, Bool.false_or,
    Bool.false_eq_true, if_false, Bool.or_self]

lemma processLineA_pass (resolve : String → Option String) (d : Bool) (line : String)
    (hpi : parseInline (pyStripList line.data) = none)
    (hpb : parseBare (pyStripList line.data) = none) :
    processLineA resolve d line =
      ⟨if ("[".data.isPrefixOf (pyStripList line.data) &&
            "]".data.isSuffixOf (pyStripList line.data)) = true
        then dep_sections.any (fun t => t.data.isPrefixOf (pyStripList line.data))
        else d, line, [], []⟩ := by
  by_cases h1 : ("[".data.isPrefixOf (pyStripList line.data) &&
      "]".data.isSuffixOf (pyStripList line.data)) = true
  · simp only [processLineA, if_pos h1]
  · simp only [processLineA, if_neg h1]
    by_cases h2 : (!d || "#".data.isPrefixOf (pyStripList line.data) ||
        (pyStripList line.data).isEmpty) = true
    · rw [if_pos h2]
    · rw [if_neg h2, hpi, hpb]

lemma processLineA_notInDeps (resolve : String → Option String) (line : String) :
    processLineA resolve false line =
      ⟨if ("[".data.isPrefixOf (pyStripList line.data) &&
            "]".data.isSuffixOf (pyStripList line.data)) = true
        then dep_sections.any (fun t => t.data.isPrefixOf (pyStripList line.data))
        else false, line, [], []⟩ := by
  by_cases h1 : ("[".data.isPrefixOf (pyStripList line.data) &&
      "]".data.isSuffixOf (pyStripList line.data)) = true
  · simp only [processLineA, if_pos h1]
  · simp only [processLineA, if_neg h1]
    rw [if_pos (by simp)]

lemma processLineA_inDeps_eq (resolve : String → Option String) (d : Bool) (line : String) :
    (processLineA resolve d line).inDeps =
      if ("[".data.isPrefixOf (pyStripList line.data) &&
          "]".data.isSuffixOf (pyStripList line.data)) = true
      then dep_sections.any (fun t => t.data.isPrefixOf (pyStripList line.data))
      else d := by
  rcases Bool.eq_false_or_eq_true d with hd | hd
  · subst hd
    rcases hpi : parseInline (pyStripList line.data) with - | ⟨nm, cv, sf⟩
    · rcases hpb : parseBare (pyStripList line.data) with - | ⟨nm, cv⟩
      · rw [processLineA_pass resolve true line hpi hpb]
      · obtain ⟨c, t, he, hc⟩ := parseBare_first_char hpb
        obtain ⟨hg1, -, -⟩ := stripped_guards he hc
        rw [processLineA_bare resolve line hpi hpb, hg1]
        rcases resolve nm with - | lv <;> simp [apply_ite]
    · obtain ⟨c, t, he, hc⟩ := parseInline_first_char hpi
      obtain ⟨hg1, -, -⟩ := stripped_guards he hc
      rw [processLineA_inline resolve line hpi, hg1]
      rcases resolve nm with - | lv <;> simp [apply_ite]
  · subst hd
    rw [processLineA_notInDeps]

lemma processLineA_inDeps_congr (r1 r2 : String → Option String) (d : Bool) (line : String) :
    (processLineA r1 d line).inDeps = (processLineA r2 d line).inDeps := by
  rw [processLineA_inDeps_eq, processLineA_inDeps_eq]

lemma processLineA_congr (r1 r2 : String → Option String) (d : Bool) (line : String)
    (h : ∀ n c, entryOf line = some (n, c) → r1 n = r2 n) :
    processLineA r1 d line = processLineA r2 d line := by
  rcases Bool.eq_false_or_eq_true d with hd | hd
  · subst hd
    rcases hpi : parseInline (pyStripList line.data) with - | ⟨nm, cv, sf⟩
    · rcases hpb : parseBare (pyStripList line.data) with - | ⟨nm, cv⟩
      · rw [processLineA_pass r1 true line hpi hpb, processLineA_pass r2 true line hpi hpb]
      · have he : entryOf line = some (nm, cv) := by
          simp [entryOf, hpi, hpb]
        rw [processLineA_bare r1 line hpi hpb, processLineA_bare r2 line hpi hpb, h nm cv he]
    · have he : entryOf line = some (nm, cv) := by
        simp [entryOf, hpi]
      rw [processLineA_inline r1 line hpi, processLineA_inline r2 line hpi, h nm cv he]
  · subst hd
    rw [processLineA_notInDeps r1 line, processLineA_notInDeps r2 line]

lemma processLineA_selfresolve (resolve : String → Option String) (d : Bool) (line : String)
    (h : ∀ n c, entryOf line = some (n, c) → resolve n = some c) :
    (processLineA resolve d line).out = line ∧ (processLineA resolve d line).stdout = [] := by
  rcases Bool.eq_false_or_eq_true d with hd | hd
  · subst hd
    rcases hpi : parseInline (pyStripList line.data) with - | ⟨nm, cv, sf⟩
    · rcases hpb : parseBare (pyStripList line.data) with - | ⟨nm, cv⟩
      · rw [processLineA_pass resolve true line hpi hpb]
        exact ⟨rfl, rfl⟩
      · have he : entryOf line = some (nm, cv) := by simp [entryOf, hpi, hpb]
        rw [processLineA_bare resolve line hpi hpb, h nm cv he]
        simp
    · have he : entryOf line = some (nm, cv) := by simp [entryOf, hpi]
      rw [processLineA_inline resolve line hpi, h nm cv he]
      simp
  · subst hd
    rw [processLineA_notInDeps]
    exact ⟨rfl, rfl⟩

lemma processLineA_absent (resolve : String → Option String) (d : Bool) (line : String)
    {n c : String} (he : entryOf line = some (n, c)) (hr : resolve n = none) :
    (processLineA resolve d line).out = line ∧ (processLineA resolve d line).stdout = [] := by
  rcases Bool.eq_false_or_eq_true d with hd | hd
  · subst hd
    rcases hpi : parseInline (pyStripList line.data) with - | ⟨nm, cv, sf⟩
    · rcases hpb : parseBare (pyStripList line.data) with - | ⟨nm, cv⟩
      · rw [processLineA_pass resolve true line hpi hpb]
        exact ⟨rfl, rfl⟩
      · have he' : entryOf line = some (nm, cv) := by simp [entryOf, hpi, hpb]
        rw [he'] at he
        simp only [Option.some.injEq, Prod.mk.injEq] at he
        obtain ⟨rfl, rfl⟩ := he
        rw [processLineA_bare resolve line hpi hpb, hr]
        exact ⟨rfl, rfl⟩
    · have he' : entryOf line = some (nm, cv) := by simp [entryOf, hpi]
      rw [he'] at he
      simp only [Option.some.injEq, Prod.mk.injEq] at he
      obtain ⟨rfl, rfl⟩ := he
      rw [processLineA_inline resolve line hpi, hr]
      exact ⟨rfl, rfl⟩
  · subst hd
    rw [processLineA_notInDeps]
    exact ⟨rfl, rfl⟩

lemma processAuxA_length (resolve : String → Option String) :
    ∀ (d : Bool) (ls : List String), (processAuxA resolve d ls).1.length = ls.length := by
  intro d ls
  induction ls generalizing d with
  | nil => rfl
  | cons l ls ih => simp [processAuxA, ih]

lemma processAuxA_selfresolve (resolve : String → Option String) (ls : List String)
    (h : ∀ l ∈ ls, ∀ n c, entryOf l = some (n, c) → resolve n = some c) :
    ∀ d : Bool, (processAuxA resolve d ls).1 = ls ∧ (processAuxA resolve d ls).2.1 = [] := by
  induction ls with
  | nil => intro d; exact ⟨rfl, rfl⟩
  | cons l ls ih =>
    intro d
    have hl := processLineA_selfresolve resolve d l (h l (by simp))
    have hrest := ih (fun l' hl' => h l' (by simp [hl'])) (processLineA resolve d l).inDeps
    simp [processAuxA, hl.1, hl.2, hrest.1, hrest.2]

lemma processLineB_eq_processLineA (resolve : String → Option String) (d : Bool)
    (line : String) : processLineB resolve d line = processLineA resolve d line := rfl

lemma processAuxB_eq_processAuxA (resolve : String → Option String) :
    ∀ (d : Bool) (ls : List String), processAuxB resolve d ls = processAuxA resolve d ls := by
  intro d ls
  induction ls generalizing d with
  | nil => rfl
  | cons l ls ih =>
    simp only [processAuxA, processAuxB, processLineB_eq_processLineA, ih]

lemma processAuxA_mask (r : String → Option String) (name : String) :
    ∀ (ls : List String) (d : Bool) (i : Nat),
      (∀ l, ls[i]? = some l → Option.map Prod.fst (entryOf l) ≠ some name →
        (processAuxA (fun n => if n = name then none else r n) d ls).1[i]? =
          (processAuxA r d ls).1[i]?) ∧
      (∀ l, ls[i]? = some l → Option.map Prod.fst (entryOf l) = some name →
        (processAuxA (fun n => if n = name then none else r n) d ls).1[i]? = some l) := by
  intro ls
  induction ls with
  | nil =>
    intro d i
    constructor <;> intro l hl <;> simp at hl
  | cons l0 ls ih =>
    intro d i
    cases i with
    | zero =>
      constructor
      · intro l hl hne
        simp only [List.getElem?_cons_zero, Option.some.injEq] at hl
        subst hl
        simp only [processAuxA, List.getElem?_cons_zero, Option.some.injEq]
        have hcongr : processLineA (fun n => if n = name then none else r n) d l0 =
            processLineA r d l0 := by
          apply processLineA_congr
          intro n c hec
          have hn : n ≠ name := by
            intro hcontra
            apply hne
            rw [hec, hcontra]
            rfl
          rw [if_neg hn]
        rw [hcongr]
      · intro l hl hm
        simp only [List.getElem?_cons_zero, Option.some.injEq] at hl
        subst hl
        simp only [processAuxA, List.getElem?_cons_zero, Option.some.injEq]
        rcases hec : entryOf l0 with - | ⟨n0, c0⟩
        · rw [hec] at hm
          simp at hm
        · rw [hec] at hm
          simp only [Option.map_some', Option.some.injEq] at hm
          subst hm
          exact (processLineA_absent _ d l0 hec (by simp)).1
    | succ i =>
      have hstate : (processLineA (fun n => if n = name then none else r n) d l0).inDeps =
          (processLineA r d l0).inDeps :=
        processLineA_inDeps_congr _ _ d l0
      constructor
      · intro l hl hne
        simp only [List.getElem?_cons_succ] at hl
        simp only [processAuxA, List.getElem?_cons_succ]
        rw [hstate]
        exact (ih (processLineA r d l0).inDeps i).1 l hl hne
      · intro l hl hm
        simp only [List.getElem?_cons_succ] at hl
        simp only [processAuxA, List.getElem?_cons_succ]
        rw [hstate]
        exact (ih (processLineA r d l0).inDeps i).2 l hl hm

lemma getLatestVersionStable_ok (name : String) (doc : RegistryDoc) :
    getLatestVersionStable name (FetchOutcome.response 200 (Except.ok doc)) =
      match findStableNum doc.versions with
      | some num => (some num, [])
      | none =>
        match doc.crateMaxVersion with
        | Except.error d => (none, ["Error fetching " ++ name ++ ": " ++ d])
        | Except.ok v => (some v, []) := rfl

lemma findStableNum_eq_find? (vs : List VersionEntry) :
    findStableNum vs =
      (vs.find? (fun v => !v.yanked && !(v.num.data.contains '-'))).map VersionEntry.num := by
  induction vs with
  | nil => rfl
  | cons v vs ih =>
    cases hv : (!v.yanked && !(v.num.data.contains '-')) with
    | true =>
      have h1 : findStableNum (v :: vs) = some v.num := by
        conv_lhs => unfold findStableNum
        rw [hv]
        exact if_pos rfl
      have h2 : List.find? (fun v => !v.yanked && !(v.num.data.contains '-')) (v :: vs)
          = some v := List.find?_cons_of_pos vs hv
      rw [h1, h2, Option.map_some']
    | false =>
      have h1 : findStableNum (v :: vs) = findStableNum vs := by
        conv_lhs => unfold findStableNum
        rw [hv]
        exact if_neg (by decide)
      have h2 : List.find? (fun v => !v.yanked && !(v.num.data.contains '-')) (v :: vs)
          = List.find? (fun v => !v.yanked && !(v.num.data.contains '-')) vs :=
        List.find?_cons_of_neg vs (by rw [hv]; exact fun hcon => absurd hcon (by decide))
      rw [h1, h2, ih]

/-! ### Claim theorems -/

/-- C1 (counterexample): on a 404 response both resolvers return absence
but print nothing: the error stream stays empty, contradicting the claim
that every failed lookup — any non-200 status included — prints a
diagnostic containing the package name. -/
theorem c1_counterexample :
    (getLatestVersionA "serde"
      (FetchOutcome.response 404 (Except.ok ⟨Except.ok "1.0.0", []⟩))).1 = none ∧
    (getLatestVersionA "serde"
      (FetchOutcome.response 404 (Except.ok ⟨Except.ok "1.0.0", []⟩))).2 = [] ∧
    (getLatestVersionStable "serde"
      (FetchOutcome.response 404 (Except.ok ⟨Except.ok "1.0.0", []⟩))).1 = none ∧
    (getLatestVersionStable "serde"
      (FetchOutcome.response 404 (Except.ok ⟨Except.ok "1.0.0", []⟩))).2 = [] :=
  ⟨rfl, rfl, rfl, rfl⟩

/-- C1 (amended): a lookup that fails by a raised error — the request
raising (timeout, network failure), the response body failing to decode,
or the `crate.max_version` path lookup failing — makes both resolvers
print `Error fetching {name}: {detail}` to the error stream and return
absence; a non-200 response makes them return absence silently, with no
diagnostic printed. -/
theorem c1_resolver_failure (name : String) (o : FetchOutcome) :
    (∀ d, o = FetchOutcome.requestError d →
      getLatestVersionA name o = (none, ["Error fetching " ++ name ++ ": " ++ d]) ∧
      getLatestVersionStable name o = (none, ["Error fetching " ++ name ++ ": " ++ d])) ∧
    (∀ d, o = FetchOutcome.response 200 (Except.error d) →
      getLatestVersionA name o = (none, ["Error fetching " ++ name ++ ": " ++ d]) ∧
      getLatestVersionStable name o = (none, ["Error fetching " ++ name ++ ": " ++ d])) ∧
    (∀ s b, o = FetchOutcome.response s b → s ≠ 200 →
      getLatestVersionA name o = (none, []) ∧
      getLatestVersionStable name o = (none, [])) ∧
    (∀ doc d, o = FetchOutcome.response 200 (Except.ok doc) →
      doc.crateMaxVersion = Except.error d →
      getLatestVersionA name o = (none, ["Error fetching " ++ name ++ ": " ++ d]) ∧
      (findStableNum doc.versions = none →
        getLatestVersionStable name o = (none, ["Error fetching " ++ name ++ ": " ++ d]))) := by
  refine ⟨?_, ?_, ?_, ?_⟩
  · rintro d rfl
    exact ⟨rfl, rfl⟩
  · rintro d rfl
    exact ⟨rfl, rfl⟩
  · rintro s b rfl hs
    constructor
    · simp [getLatestVersionA, hs]
    · simp [getLatestVersionStable, hs]
  · rintro doc d rfl hmax
    constructor
    · simp [getLatestVersionA, hmax]
    · intro hfs
      simp [getLatestVersionStable, hfs, hmax]

/-- C1 witness: the amended theorem applied to a concrete timeout. -/
theorem c1_resolver_failure_witness :
    getLatestVersionA "serde" (FetchOutcome.requestError "timeout")
      = (none, ["Error fetching serde: timeout"]) ∧
    getLatestVersionStable "serde" (FetchOutcome.requestError "timeout")
      = (none, ["Error fetching serde: timeout"]) :=
  (c1_resolver_failure "serde" (FetchOutcome.requestError "timeout")).1 "timeout" rfl

/-- C3 (confirmed): on a 200 response with a decoded body, the
stable-policy resolver returns the `num` of the first versions-list
element with `yanked = false` and no hyphen in `num`; when no element
qualifies (the empty list included) it returns `crate.max_version`
(provided that path decodes). -/
theorem c3_stable_selection (name : String) (doc : RegistryDoc) :
    (∀ v, doc.versions.find? (fun v => !v.yanked && !(v.num.data.contains '-')) = some v →
      getLatestVersionStable name (FetchOutcome.response 200 (Except.ok doc))
        = (some v.num, [])) ∧
    (doc.versions.find? (fun v => !v.yanked && !(v.num.data.contains '-')) = none →
      ∀ m, doc.crateMaxVersion = Except.ok m →
        getLatestVersionStable name (FetchOutcome.response 200 (Except.ok doc))
          = (some m, [])) := by
  constructor
  · intro v hv
    rw [getLatestVersionStable_ok, findStableNum_eq_find?, hv, Option.map_some']
  · intro hnone m hm
    rw [getLatestVersionStable_ok, findStableNum_eq_find?, hnone, Option.map_none', hm]

/-- C3 witness: the specification's own example list — a pre-release
first, then a stable release, then a yanked one — resolves to `1.9.0`. -/
theorem c3_stable_selection_witness :
    getLatestVersionStable "serde"
      (FetchOutcome.response 200 (Except.ok ⟨Except.ok "2.0.0-beta.1",
        [⟨"2.0.0-beta.1", false⟩, ⟨"1.9.0", false⟩, ⟨"1.8.0", true⟩]⟩))
      = (some "1.9.0", []) :=
  (c3_stable_selection "serde" ⟨Except.ok "2.0.0-beta.1",
    [⟨"2.0.0-beta.1", false⟩, ⟨"1.9.0", false⟩, ⟨"1.8.0", true⟩]⟩).1 ⟨"1.9.0", false⟩ rfl

/-- C4 (confirmed): for a line whose trimmed text starts with `[` and ends
with `]`, the tracked section flag becomes true exactly when the trimmed
text starts with one of the three literal prefixes `[dependencies]`,
`[dev-dependencies]`, `[build-dependencies]` (false for any other
bracketed line); the header line is output unchanged with no diagnostic
and no lookup, and the stable variant tracks the same flag; a line not so
bracketed leaves the flag unchanged in both variants. -/
theorem c4_section_tracker (resolve : String → Option String) (d : Bool) (line : String) :
    (("[".data.isPrefixOf (pyStripList line.data) &&
        "]".data.isSuffixOf (pyStripList line.data)) = true →
      ((processLineA resolve d line).inDeps = true ↔
        ("[dependencies]".data.isPrefixOf (pyStripList line.data) = true ∨
         "[dev-dependencies]".data.isPrefixOf (pyStripList line.data) = true ∨
         "[build-dependencies]".data.isPrefixOf (pyStripList line.data) = true)) ∧
      (processLineA resolve d line).out = line ∧
      (processLineA resolve d line).stdout = [] ∧
      (processLineA resolve d line).lookups = [] ∧
      (processLineB resolve d line).inDeps = (processLineA resolve d line).inDeps) ∧
    (¬ ("[".data.isPrefixOf (pyStripList line.data) &&
        "]".data.isSuffixOf (pyStripList line.data)) = true →
      (processLineA resolve d line).inDeps = d ∧
      (processLineB resolve d line).inDeps = d) := by
  constructor
  · intro h1
    refine ⟨?_, ?_, ?_, ?_, ?_⟩
    · simp only [processLineA, if_pos h1]
      simp [dep_sections, List.any_cons, List.any_nil, Bool.or_eq_true]
    · simp only [processLineA, if_pos h1]
    · simp only [processLineA, if_pos h1]
    · simp only [processLineA, if_pos h1]
    · rw [processLineB_eq_processLineA]
  · intro h1
    constructor
    · rw [processLineA_inDeps_eq, if_neg h1]
    · rw [processLineB_eq_processLineA, processLineA_inDeps_eq, if_neg h1]

/-- C4 witness: the theorem applied to the header line `[dependencies]`. -/
theorem c4_section_tracker_witness :
    (processLineA (fun _ => none) false "[dependencies]\n").inDeps = true :=
  ((c4_section_tracker (fun _ => none) false "[dependencies]\n").1 rfl).1.mpr
    (Or.inl rfl)

/-- C6 (confirmed): a line outside a recognized dependency section, or a
line neither pattern matches (comments and blank lines included), is
reproduced byte-for-byte with no diagnostic and no lookup, whatever the
resolver returns. -/
theorem c6_frame (resolve : String → Option String) (d : Bool) (line : String) :
    (d = false →
      (processLineA resolve d line).out = line ∧
      (processLineA resolve d line).stdout = [] ∧
      (processLineA resolve d line).lookups = []) ∧
    (parseInline (pyStripList line.data) = none →
      parseBare (pyStripList line.data) = none →
      (processLineA resolve d line).out = line ∧
      (processLineA resolve d line).stdout = [] ∧
      (processLineA resolve d line).lookups = []) := by
  constructor
  · rintro rfl
    rw [processLineA_notInDeps]
    exact ⟨rfl, rfl, rfl⟩
  · intro hpi hpb
    rw [processLineA_pass resolve d line hpi hpb]
    exact ⟨rfl, rfl, rfl⟩

/-- C6 witness: a dependency-shaped line after `[profile.release]` is left
untouched even though the resolver offers a different version, both as a
whole-file run and through the theorem applied to that line. -/
theorem c6_frame_witness :
    processFileA (fun _ => some "9.9") ["[profile.release]\n", "serde = \"1.0\"\n"]
      = (["[profile.release]\n", "serde = \"1.0\"\n"], [], []) ∧
    (processLineA (fun _ => some "9.9") false "serde = \"1.0\"\n").out = "serde = \"1.0\"\n" :=
  ⟨rfl, ((c6_frame (fun _ => some "9.9") false "serde = \"1.0\"\n").1 rfl).1⟩

/-- C7 (confirmed): with a resolver that answers every matched entry with
that entry's own declared version, one full run reproduces the line
sequence byte-for-byte and prints nothing, and a second run on the output
is again the identity. -/
theorem c7_idempotence (resolve : String → Option String) (ls : List String)
    (h : ∀ l ∈ ls, ∀ n c, entryOf l = some (n, c) → resolve n = some c) :
    (processFileA resolve ls).1 = ls ∧ (processFileA resolve ls).2.1 = [] ∧
    (processFileA resolve (processFileA resolve ls).1).1 = ls := by
  obtain ⟨h1, h2⟩ := processAuxA_selfresolve resolve ls h false
  refine ⟨h1, h2, ?_⟩
  have hrw : (processFileA resolve ls).1 = ls := h1
  rw [hrw]
  exact h1

/-- C7 witness: the theorem applied to a two-line manifest whose resolver
returns the declared version of `libc`. -/
theorem c7_idempotence_witness :
    (processFileA (fun n => if n = "libc" then some "0.2.0" else none)
      ["[dependencies]\n", "libc = \"0.2.0\"\n"]).1
      = ["[dependencies]\n", "libc = \"0.2.0\"\n"] :=
  (c7_idempotence (fun n => if n = "libc" then some "0.2.0" else none)
    ["[dependencies]\n", "libc = \"0.2.0\"\n"] (by
      intro l hl n c hec
      simp only [List.mem_cons, List.not_mem_nil, or_false] at hl
      rcases hl with rfl | rfl
      · rw [show entryOf "[dependencies]\n" = none from rfl] at hec
        cases hec
      · rw [show entryOf "libc = \"0.2.0\"\n" = some ("libc", "0.2.0") from rfl] at hec
        simp only [Option.some.injEq, Prod.mk.injEq] at hec
        obtain ⟨rfl, rfl⟩ := hec
        simp)).1

/-- C8 (confirmed): with the registry lookup abstracted into a resolver
parameter, the line-processing pipelines of `update_deps.py` and
`update_deps_stable.py` are extensionally equal — identical output lines,
identical standard output, identical lookup sequences — on every input. -/
theorem c8_pipelines_equal (resolve : String → Option String) (ls : List String) :
    processFileB resolve ls = processFileA resolve ls :=
  processAuxB_eq_processAuxA resolve false ls

/-- C9 (confirmed): forcing one package's lookup to absence keeps one
output line per input line; every line whose entry is a different package
(or no entry at all) is processed exactly as it otherwise would be, and
the failing package's lines are emitted unchanged. -/
theorem c9_failure_isolation (r : String → Option String) (name : String) (ls : List String) :
    (processFileA (fun n => if n = name then none else r n) ls).1.length = ls.length ∧
    ∀ i : Nat,
      (∀ l, ls[i]? = some l → Option.map Prod.fst (entryOf l) ≠ some name →
        (processFileA (fun n => if n = name then none else r n) ls).1[i]? =
          (processFileA r ls).1[i]?) ∧
      (∀ l, ls[i]? = some l → Option.map Prod.fst (entryOf l) = some name →
        (processFileA (fun n => if n = name then none else r n) ls).1[i]? = some l) :=
  ⟨processAuxA_length _ false ls, fun i => processAuxA_mask r name ls false i⟩

/-- C9 witness: with the `libc` lookup failing, the `libc` line of a
two-line manifest is still produced, unchanged, as output line 1. -/
theorem c9_failure_isolation_witness :
    (processFileA (fun n => if n = "libc" then none else (fun _ => some "9.9") n)
      ["[dependencies]\n", "libc = \"0.2.0\"\n"]).1[1]? = some "libc = \"0.2.0\"\n" :=
  ((c9_failure_isolation (fun _ => some "9.9") "libc"
    ["[dependencies]\n", "libc = \"0.2.0\"\n"]).2 1).2 "libc = \"0.2.0\"\n" rfl rfl

/-- C2 (counterexample): the trimmed line `foo = "1.0" \x7bx` contains a
brace and is not of the form `name = "V"`, yet inside a dependency
section the pipeline classifies it as a bare-string entry: it performs a
lookup and rewrites the line instead of passing it through unchanged with
no lookup. -/
theorem c2_counterexample :
    '\x7b' ∈ pyStripList "foo = \"1.0\" \x7bx\n".data ∧
    parseInline (pyStripList "foo = \"1.0\" \x7bx\n".data) = none ∧
    processLineA (fun _ => some "2.0") true "foo = \"1.0\" \x7bx\n"
      = ⟨true, "foo = \"2.0\"\n", ["Updating foo: 1.0 -> 2.0"], ["foo"]⟩ :=
  ⟨by decide, rfl, rfl⟩

/-- C2 (amended): inside a dependency section, a line that the
inline-table pattern does not match is classified as a bare-string entry
(one lookup performed, possibly rewritten) exactly when some prefix of
its trimmed text matches `name = "V"` (name over `[a-z0-9-_]`, flexible
whitespace, `V` non-empty and quote-free); trailing text after the
closing quote — braces included — does not prevent the match.  Every
other such line is passed through unchanged with no lookup. -/
theorem c2_bare_classification (resolve : String → Option String) (line : String)
    (hpi : parseInline (pyStripList line.data) = none) :
    (SpecBareAtStart (pyStripList line.data) →
      ∃ n c, parseBare (pyStripList line.data) = some (n, c) ∧
        (processLineA resolve true line).lookups = [n]) ∧
    (¬ SpecBareAtStart (pyStripList line.data) →
      (processLineA resolve true line).out = line ∧
      (processLineA resolve true line).stdout = [] ∧
      (processLineA resolve true line).lookups = []) := by
  constructor
  · intro hs
    obtain ⟨⟨n, c⟩, hp⟩ := parseBare_complete hs
    refine ⟨n, c, hp, ?_⟩
    rw [processLineA_bare resolve line hpi hp]
    rcases resolve n with - | lv <;> simp [apply_ite]
  · intro hs
    rcases hpb : parseBare (pyStripList line.data) with - | ⟨n, c⟩
    · rw [processLineA_pass resolve true line hpi hpb]
      exact ⟨rfl, rfl, rfl⟩
    · exact absurd (parseBare_sound hpb) hs

/-- C2 witness: the theorem applied to the unrecognized line
`libc 0.2.0` (no equals sign), which is passed through with no lookup. -/
theorem c2_bare_classification_witness :
    (processLineA (fun _ => some "9.9") true "libc 0.2.0\n").out = "libc 0.2.0\n" ∧
    (processLineA (fun _ => some "9.9") true "libc 0.2.0\n").lookups = [] := by
  have h := (c2_bare_classification (fun _ => some "9.9") "libc 0.2.0\n" rfl).2 (by
    intro hs
    obtain ⟨n, w1, w2, v, r, heq, -, -, -, -, -, -⟩ := hs
    have hmem : '=' ∈ pyStripList "libc 0.2.0\n".data := by
      rw [heq]
      simp
    exact absurd hmem (by decide))
  exact ⟨h.1, h.2.2⟩

/-- C5 (counterexample): for the matched entry `libc = "0.2.0"` a
resolver answering the empty string — which is neither absence nor equal
byte-for-byte to the declared version — produces no diagnostic and
leaves the line unchanged, where the claim requires a rewrite and an
`Updating` diagnostic. -/
theorem c5_counterexample :
    (some "" ≠ (none : Option String)) ∧ ("" ≠ "0.2.0") ∧
    processLineA (fun _ => some "") true "libc = \"0.2.0\"\n"
      = ⟨true, "libc = \"0.2.0\"\n", [], ["libc"]⟩ :=
  ⟨by simp, by decide, rfl⟩

/-- C5 (amended): for a matched entry, a resolved version that is
absence, the empty string, or byte-for-byte equal to the declared version
leaves the line unchanged with no diagnostic; any other resolved version
prints `Updating {name}: {declared} -> {new}` and rebuilds the line in
its original form — `name = "new"` for bare-string, `name = \x7b version =
"new"{trailing}\x7d` for inline-table with the captured trailing text
re-emitted verbatim — ending in exactly one newline character. -/
theorem c5_rewriter (resolve : String → Option String)
    (line name currentVer suf v : String) :
    (parseInline (pyStripList line.data) = some (name, currentVer, suf) →
      (resolve name = none →
        processLineA resolve true line = ⟨true, line, [], [name]⟩) ∧
      (resolve name = some v → (v = "" ∨ v = currentVer) →
        processLineA resolve true line = ⟨true, line, [], [name]⟩) ∧
      (resolve name = some v → ¬(v = "" ∨ v = currentVer) →
        processLineA resolve true line =
          ⟨true, name ++ " = \x7b version = \"" ++ v ++ "\"" ++ suf ++ "\x7d\n",
           ["Updating " ++ name ++ ": " ++ currentVer ++ " -> " ++ v], [name]⟩)) ∧
    (parseInline (pyStripList line.data) = none →
      parseBare (pyStripList line.data) = some (name, currentVer) →
      (resolve name = none →
        processLineA resolve true line = ⟨true, line, [], [name]⟩) ∧
      (resolve name = some v → (v = "" ∨ v = currentVer) →
        processLineA resolve true line = ⟨true, line, [], [name]⟩) ∧
      (resolve name = some v → ¬(v = "" ∨ v = currentVer) →
        processLineA resolve true line =
          ⟨true, name ++ " = \"" ++ v ++ "\"\n",
           ["Updating " ++ name ++ ": " ++ currentVer ++ " -> " ++ v], [name]⟩)) := by
  constructor
  · intro hpi
    refine ⟨?_, ?_, ?_⟩
    · intro hr
      rw [processLineA_inline resolve line hpi, hr]
    · intro hr hv
      rcases hv with rfl | rfl <;> rw [processLineA_inline resolve line hpi, hr] <;> simp
    · intro hr hv
      obtain ⟨hv1, hv2⟩ := not_or.mp hv
      rw [processLineA_inline resolve line hpi, hr]
      simp [hv1, hv2]
  · intro hpi hpb
    refine ⟨?_, ?_, ?_⟩
    · intro hr
      rw [processLineA_bare resolve line hpi hpb, hr]
    · intro hr hv
      rcases hv with rfl | rfl <;> rw [processLineA_bare resolve line hpi hpb, hr] <;> simp
    · intro hr hv
      obtain ⟨hv1, hv2⟩ := not_or.mp hv
      rw [processLineA_bare resolve line hpi hpb, hr]
      simp [hv1, hv2]

/-- C5 witness: the inline-table entry of the specification's example is
rewritten with its trailing attributes re-emitted verbatim. -/
theorem c5_rewriter_witness :
    processLineA (fun _ => some "1.0.200") true
      "serde = \x7b version = \"1.0.0\", features = [\"derive\"] \x7d\n"
      = ⟨true, "serde = \x7b version = \"1.0.200\", features = [\"derive\"] \x7d\n",
         ["Updating serde: 1.0.0 -> 1.0.200"], ["serde"]⟩ :=
  ((c5_rewriter (fun _ => some "1.0.200")
    "serde = \x7b version = \"1.0.0\", features = [\"derive\"] \x7d\n"
    "serde" "1.0.0" ", features = [\"derive\"] " "1.0.200").1 rfl).2.2 rfl (by decide)

/-- C10 (confirmed): a resolved version equal to the empty string is
treated exactly like absence for a matched entry — the line is left
unchanged and nothing is printed — because the guard tests Python
truthiness of the resolved string. -/
theorem c10_empty_version (resolve : String → Option String)
    (line name currentVer suf : String) (hr : resolve name = some "") :
    (parseInline (pyStripList line.data) = some (name, currentVer, suf) →
      processLineA resolve true line = ⟨true, line, [], [name]⟩ ∧
      processLineA resolve true line = processLineA (fun _ => none) true line) ∧
    (parseInline (pyStripList line.data) = none →
      parseBare (pyStripList line.data) = some (name, currentVer) →
      processLineA resolve true line = ⟨true, line, [], [name]⟩ ∧
      processLineA resolve true line = processLineA (fun _ => none) true line) := by
  constructor
  · intro hpi
    have h1 : processLineA resolve true line = ⟨true, line, [], [name]⟩ := by
      rw [processLineA_inline resolve line hpi, hr]
      simp
    have h2 : processLineA (fun _ => none) true line = ⟨true, line, [], [name]⟩ := by
      rw [processLineA_inline (fun _ => none) line hpi]
    exact ⟨h1, h1.trans h2.symm⟩
  · intro hpi hpb
    have h1 : processLineA resolve true line = ⟨true, line, [], [name]⟩ := by
      rw [processLineA_bare resolve line hpi hpb, hr]
      simp
    have h2 : processLineA (fun _ => none) true line = ⟨true, line, [], [name]⟩ := by
      rw [processLineA_bare (fun _ => none) line hpi hpb]
    exact ⟨h1, h1.trans h2.symm⟩

/-- C10 witness: the theorem applied to a bare-string entry whose lookup
resolves to the empty string. -/
theorem c10_empty_version_witness :
    processLineA (fun _ => some "") true "foo = \"1.2.3\"\n"
      = ⟨true, "foo = \"1.2.3\"\n", [], ["foo"]⟩ :=
  ((c10_empty_version (fun _ => some "") "foo = \"1.2.3\"\n" "foo" "1.2.3" "" rfl).2
    rfl rfl).1
